import Mathlib

/-!
Shallow embedding of `utils/merkletrie/filesystem/node.go`: the
filesystem-backed merkle-trie node with the metadata fast path.

Conventions of the embedding:
* machine integers become `Nat`/`Int` (`int64` sizes are `Int`, the Go
  conversion `uint32(x)` is explicit arithmetic modulo `2 ^ 32`);
* byte slices become `List Nat`;
* Go maps become association lists with last-write-wins lookup, a `nil`
  map or slice becomes `none`/`[]`;
* the billy filesystem is a record of functions returning `Except`, so a
  failing `ReadDir`/`Open`/`Readlink` is an `Except.error`;
* the SHA1 hasher (`plumbing.NewHasher`) is an abstract parameter
  `HashEnv.sha1Blob` taking the declared length handed to the hasher and
  the bytes actually written to it;
* the mutable node fields `hash` and `children` are threaded explicitly:
  each operation returns the updated node, together with a `Bool` that
  records whether the operation touched the filesystem.
-/

/-- Go `time.Time`, reduced to the instant it denotes (seconds and
nanoseconds). `Equal` compares instants; `IsZero` detects the zero value. -/
structure GoTime where
  sec : Int
  nsec : Int
deriving DecidableEq, Repr

def GoTime.isZero (t : GoTime) : Bool :=
  t.sec == 0 && t.nsec == 0

def GoTime.equal (a b : GoTime) : Bool :=
  a.sec == b.sec && a.nsec == b.nsec

/-- `Options` from node.go: only the AutoCRLF flag. -/
structure Options where
  autoCRLF : Bool
deriving DecidableEq, Repr

/-- `index.Entry` restricted to the fields node.go reads: name, recorded
hash (20 bytes), 32-bit size, modification time, and git file mode. -/
structure IndexEntry where
  name : String
  hash : List Nat
  size : Nat
  modifiedAt : GoTime
  mode : Nat
deriving DecidableEq, Repr

/-- The `os.FileInfo` fields node.go reads from a directory entry:
`Name()`, `Size()`, `Mode()` (the full `os.FileMode` bit set, a uint32),
and `ModTime()`. `IsDir()` is derived from the mode bits. -/
structure DirEntryInfo where
  name : String
  size : Int
  mode : Nat
  modTime : GoTime
deriving DecidableEq, Repr

/-- A directory entry as returned by `fs.ReadDir`: a name plus an
`Info()` call that may fail. -/
structure DirEntry where
  name : String
  info : Except Unit DirEntryInfo

/-- Errors of `fs.ReadDir`, split the way `os.IsNotExist` splits them. -/
inductive FSError where
  | notExist
  | other
deriving DecidableEq, Repr

/-- The slice of `billy.Filesystem` that node.go uses. `openFile`
returns the full byte content of the file (a failure stands for a failed
`Open`, `Seek` or read); `readlink` returns the bytes of the link target
string. -/
structure GoFS where
  readDir : String → Except FSError (List DirEntry)
  openFile : String → Except Unit (List Nat)
  readlink : String → Except Unit (List Nat)

/-- Abstract hashing environment. `sha1Blob declaredLen bytes` stands for
`plumbing.NewHasher(SHA1, BlobObject, declaredLen)` fed `bytes` and
summed; `isBinary` stands for `convert.GetStat(...).IsBinary()`, whose
detection rule the spec leaves unspecified. -/
structure HashEnv where
  sha1Blob : Int → List Nat → List Nat
  isBinary : List Nat → Bool

/-- Go `os.FileMode` type bits (uint32, high bits). -/
def modeDir : Nat := 2 ^ 31

def modeTemporary : Nat := 2 ^ 28

def modeSymlink : Nat := 2 ^ 27

def modeDevice : Nat := 2 ^ 26

def modeNamedPipe : Nat := 2 ^ 25

def modeSocket : Nat := 2 ^ 24

def modeCharDevice : Nat := 2 ^ 21

def modeIrregular : Nat := 2 ^ 19

/-- Go `os.ModeType`: the union of all file-type bits; a mode with none
of these set is a regular file. -/
def modeType : Nat :=
  modeDir ||| modeSymlink ||| modeNamedPipe ||| modeSocket ||| modeDevice |||
    modeCharDevice ||| modeIrregular

/-- Git object-format file modes (`plumbing/filemode`). -/
def gitEmpty : Nat := 0

def gitDirMode : Nat := 0o040000

def gitRegular : Nat := 0o100644

def gitExecutable : Nat := 0o100755

def gitSymlinkMode : Nat := 0o120000

def gitSubmodule : Nat := 0o160000

/-- Modelled from the spec: the translation of an on-disk `os.FileMode`
to the git object-format mode encoding (`filemode.NewFromOSFileMode`,
which lives outside the given sources). The object format only encodes
plain files (with or without the owner-executable bit), directories and
symlinks; every other on-disk type has no equivalent and the translation
fails. -/
def newFromOSFileMode (m : Nat) : Option Nat :=
  if m &&& modeType = 0 then
    if m &&& 0o100 ≠ 0 then some gitExecutable else some gitRegular
  else if m &&& modeDir ≠ 0 then some gitDirMode
  else if m &&& modeSymlink ≠ 0 then some gitSymlinkMode
  else none

/-- `FileMode.Bytes()`: the mode as 4 little-endian bytes. -/
def modeBytes (m : Nat) : List Nat :=
  [m % 256, m / 256 % 256, m / 256 ^ 2 % 256, m / 256 ^ 3 % 256]

/-- The Go conversion `uint32(x)` on an `int64`, as arithmetic modulo
`2 ^ 32` (two's complement truncation). -/
def uint32cast (i : Int) : Nat :=
  (i % (2 ^ 32 : Int)).toNat

/-- `path.Join(a, b)` for the shapes node.go produces: a clean relative
directory path joined with a single clean entry name. -/
def pathJoin (a b : String) : String :=
  if a = "" then b else a ++ "/" ++ b

/-- Last-write-wins lookup in an association list, the behaviour of a Go
map built by inserting the pairs in order. -/
def mapLookup {α : Type} : List (String × α) → String → Option α
  | [], _ => none
  | (k, v) :: rest, p =>
    match mapLookup rest p with
    | some r => some r
    | none => if k = p then some v else none

/-- Last-write-wins lookup of an index entry by `Name`, the behaviour of
the `idxMap` Go map built in `NewRootNodeWithIndex`. -/
def entryLookup : List IndexEntry → String → Option IndexEntry
  | [], _ => none
  | e :: rest, p =>
    match entryLookup rest p with
    | some r => some r
    | none => if e.name = p then some e else none

/-- The fixed `ignore` set of node.go: the VCS metadata directory. -/
def ignoreNames : List String := [".git"]

/-- CRLF → LF rewriting, the effect of `convert.NewLFWriter`: every
`\r\n` pair (13, 10) becomes a single `\n` (10), scanning left to right. -/
def lfConvert : List Nat → List Nat
  | [] => []
  | [b] => [b]
  | b :: c :: rest =>
    if b = 13 && c = 10 then 10 :: lfConvert rest
    else b :: lfConvert (c :: rest)

/-- Modelled from the spec: `convert.GetStat(...).CRLF`, the number of
CRLF sequences the filter removes, i.e. the length lost by `lfConvert`. -/
def crlfCount (l : List Nat) : Nat :=
  l.length - (lfConvert l).length

/-- The node of node.go. The `fs` receiver field is passed to each
operation instead of being stored; `submodules` and the `idxMap` index
map are association lists (`idxMap = none` models a nil map, i.e. a root
built without an index); `hash = none` models the nil `[]byte`;
`children = []` models the nil slice. -/
inductive Node where
  | mk
    (submodules : List (String × List Nat))
    (idxMap : Option (List IndexEntry))
    (options : Option Options)
    (path : String)
    (hash : Option (List Nat))
    (children : List Node)
    (isDir : Bool)
    (mode : Nat)
    (size : Int)
    (modTime : GoTime)

def Node.submodules : Node → List (String × List Nat)
  | .mk s _ _ _ _ _ _ _ _ _ => s

def Node.idxMap : Node → Option (List IndexEntry)
  | .mk _ i _ _ _ _ _ _ _ _ => i

def Node.options : Node → Option Options
  | .mk _ _ o _ _ _ _ _ _ _ => o

def Node.path : Node → String
  | .mk _ _ _ p _ _ _ _ _ _ => p

def Node.hash : Node → Option (List Nat)
  | .mk _ _ _ _ h _ _ _ _ _ => h

def Node.children : Node → List Node
  | .mk _ _ _ _ _ c _ _ _ _ => c

def Node.isDir : Node → Bool
  | .mk _ _ _ _ _ _ d _ _ _ => d

def Node.mode : Node → Nat
  | .mk _ _ _ _ _ _ _ m _ _ => m

def Node.size : Node → Int
  | .mk _ _ _ _ _ _ _ _ s _ => s

def Node.modTime : Node → GoTime
  | .mk _ _ _ _ _ _ _ _ _ t => t

/-- Assignment to the mutable `hash` field. -/
def Node.withHash : Node → Option (List Nat) → Node
  | .mk s i o p _ c d m sz t, h => .mk s i o p h c d m sz t

/-- Assignment to the mutable `children` field. -/
def Node.withChildren : Node → List Node → Node
  | .mk s i o p h _ d m sz t, c => .mk s i o p h c d m sz t

/-- `NewRootNode`: root directory node with no index and no options. -/
def NewRootNode (submodules : List (String × List Nat)) : Node :=
  .mk submodules none none "" none [] true 0 0 ⟨0, 0⟩

/-- `NewRootNodeWithOptions`. -/
def NewRootNodeWithOptions (submodules : List (String × List Nat))
    (options : Options) : Node :=
  .mk submodules none (some options) "" none [] true 0 0 ⟨0, 0⟩

/-- `NewRootNodeWithIndex`: the `idxMap` Go map keyed by entry name is
kept as the entry list itself; `entryLookup` reproduces its last-write-
wins lookup. -/
def NewRootNodeWithIndex (submodules : List (String × List Nat))
    (entries : List IndexEntry) (options : Options) : Node :=
  .mk submodules (some entries) (some options) "" none [] true 0 0 ⟨0, 0⟩

/-- `getIndexEntry`: nil map → nil, otherwise map lookup by path. -/
def getIndexEntry (n : Node) : Option IndexEntry :=
  match n.idxMap with
  | none => none
  | some l => entryLookup l n.path

/-- `metadataMatches`: size check via `uint32(n.size)`, then the
modification-time check (skipped when the observed time is the zero
value), then the translated-mode check. -/
def metadataMatches (n : Node) (entry : IndexEntry) : Bool :=
  if uint32cast n.size ≠ entry.size then false
  else if !n.modTime.isZero && !n.modTime.equal entry.modifiedAt then false
  else
    match newFromOSFileMode n.mode with
    | none => false
    | some mode => mode == entry.mode

/-- `doCalculateHashForRegular`: open the file (failure → zero hash);
with AutoCRLF on, a non-binary file is hashed through the LF writer with
the declared length reset to `n.size - stat.CRLF`; otherwise the raw
bytes are hashed with declared length `n.size`. -/
def doCalculateHashForRegular (fs : GoFS) (env : HashEnv) (n : Node) :
    List Nat :=
  match fs.openFile n.path with
  | .error _ => List.replicate 20 0
  | .ok content =>
    match n.options with
    | some o =>
      if o.autoCRLF then
        if env.isBinary content then env.sha1Blob n.size content
        else
          env.sha1Blob (n.size - (crlfCount content : Int)) (lfConvert content)
      else env.sha1Blob n.size content
    | none => env.sha1Blob n.size content

/-- `doCalculateHashForSymlink`: read the link target (failure → zero
hash), hash its bytes with declared length `n.size`. -/
def doCalculateHashForSymlink (fs : GoFS) (env : HashEnv) (n : Node) :
    List Nat :=
  match fs.readlink n.path with
  | .error _ => List.replicate 20 0
  | .ok target => env.sha1Blob n.size target

/-- `calculateHash`: the computed hash bytes, paired with whether the
filesystem content (file bytes or link target) was touched. Branch order
follows the source: directory sentinel, mode translation, submodule map,
index fast path, slow path. -/
def calculateHash (fs : GoFS) (env : HashEnv) (n : Node) :
    List Nat × Bool :=
  if n.isDir then (List.replicate 24 0, false)
  else
    match newFromOSFileMode n.mode with
    | none => (List.replicate 20 0, false)
    | some mode =>
      match mapLookup n.submodules n.path with
      | some submoduleHash => (submoduleHash ++ modeBytes gitSubmodule, false)
      | none =>
        match getIndexEntry n with
        | some entry =>
          if metadataMatches n entry then
            (entry.hash ++ modeBytes mode, false)
          else if n.mode &&& modeSymlink ≠ 0 then
            (doCalculateHashForSymlink fs env n ++ modeBytes mode, true)
          else (doCalculateHashForRegular fs env n ++ modeBytes mode, true)
        | none =>
          if n.mode &&& modeSymlink ≠ 0 then
            (doCalculateHashForSymlink fs env n ++ modeBytes mode, true)
          else (doCalculateHashForRegular fs env n ++ modeBytes mode, true)

/-- `Hash()`: lazy and memoized — computed only when the `hash` field is
still nil. Returns the bytes, the updated node, and whether the
filesystem content was touched by this call. -/
def nodeHash (fs : GoFS) (env : HashEnv) (n : Node) :
    List Nat × Node × Bool :=
  match n.hash with
  | some bytes => (bytes, n, false)
  | none =>
    let r := calculateHash fs env n
    (r.1, n.withHash (some r.1), r.2)

/-- `newChildNode`: child node from a `FileInfo`; a path present in the
submodule map forces `isDir` to false. -/
def newChildNode (n : Node) (file : DirEntryInfo) : Node :=
  let p := pathJoin n.path file.name
  let dir :=
    if (mapLookup n.submodules p).isSome then false
    else file.mode &&& modeDir ≠ 0
  .mk n.submodules n.idxMap n.options p none [] dir file.mode file.size
    file.modTime

/-- The loop body of `calculateChildren`: skip names in the ignore set,
propagate `Info()` failures, skip sockets, build child nodes in listing
order. -/
def buildChildren (n : Node) : List DirEntry → Except Unit (List Node)
  | [] => .ok []
  | file :: rest =>
    if ignoreNames.contains file.name then buildChildren n rest
    else
      match file.info with
      | .error _ => .error ()
      | .ok fi =>
        if fi.mode &&& modeSocket ≠ 0 then buildChildren n rest
        else
          match buildChildren n rest with
          | .error e => .error e
          | .ok cs => .ok (newChildNode n fi :: cs)

/-- `calculateChildren`: non-directories and nodes with a non-empty
cached child list return unchanged; otherwise `ReadDir` runs — a
not-exist failure leaves the (empty) children in place, any other
failure propagates. The `Bool` records whether `ReadDir` was invoked. -/
def calculateChildren (fs : GoFS) (n : Node) :
    Except Unit (Node × Bool) :=
  if !n.isDir then .ok (n, false)
  else if n.children.length ≠ 0 then .ok (n, false)
  else
    match fs.readDir n.path with
    | .error .notExist => .ok (n, true)
    | .error .other => .error ()
    | .ok files =>
      match buildChildren n files with
      | .error _ => .error ()
      | .ok cs => .ok (n.withChildren cs, true)

/-- `Children()`: the (possibly just computed) child list. -/
def nodeChildren (fs : GoFS) (n : Node) :
    Except Unit (List Node × Node × Bool) :=
  match calculateChildren fs n with
  | .error e => .error e
  | .ok (n2, b) => .ok (n2.children, n2, b)

/-- `NumChildren()`. -/
def nodeNumChildren (fs : GoFS) (n : Node) :
    Except Unit (Nat × Node × Bool) :=
  match calculateChildren fs n with
  | .error e => .error e
  | .ok (n2, b) => .ok (n2.children.length, n2, b)

/-- The filter `calculateChildren` applies to one directory entry:
ignored names and sockets are dropped, everything else becomes a child
node. -/
def childOfEntry (n : Node) (f : DirEntry) : Option Node :=
  if ignoreNames.contains f.name then none
  else
    match f.info with
    | .error _ => none
    | .ok i =>
      if i.mode &&& modeSocket ≠ 0 then none else some (newChildNode n i)

/-! Concrete fixtures used by the witness and counterexample theorems. -/

/-- A hashing environment whose digest is the constant 20-byte value 7,
distinguishable from both the zero hash and the recorded index hashes
used in the fixtures. -/
def envConst : HashEnv where
  sha1Blob := fun _ _ => List.replicate 20 7
  isBinary := fun _ => false

/-- A filesystem on which every operation fails (listing failures are of
the non-missing kind). -/
def fsUnavailable : GoFS where
  readDir := fun _ => .error .other
  openFile := fun _ => .error ()
  readlink := fun _ => .error ()

/-- A filesystem whose directories have all vanished. -/
def fsNotExist : GoFS where
  readDir := fun _ => .error .notExist
  openFile := fun _ => .error ()
  readlink := fun _ => .error ()

/-- A filesystem whose directories are all empty. -/
def fsEmptyListing : GoFS where
  readDir := fun _ => .ok []
  openFile := fun _ => .error ()
  readlink := fun _ => .error ()

/-- A filesystem on which every file reads as ten `A` bytes. -/
def fsContent : GoFS where
  readDir := fun _ => .error .other
  openFile := fun _ => .ok (List.replicate 10 65)
  readlink := fun _ => .error ()

/-- A filesystem on which every file reads as `A\r\nB`. -/
def fsCRLF : GoFS where
  readDir := fun _ => .error .other
  openFile := fun _ => .ok [65, 13, 10, 66]
  readlink := fun _ => .error ()

/-- A plain regular-file directory entry. -/
def plainInfo : DirEntryInfo := ⟨"f.txt", 3, 0o644, ⟨50, 0⟩⟩

def plainEntry : DirEntry := ⟨"f.txt", .ok plainInfo⟩

/-- A unix-socket directory entry. -/
def socketInfo : DirEntryInfo := ⟨"sock", 0, modeSocket, ⟨0, 0⟩⟩

def socketEntry : DirEntry := ⟨"sock", .ok socketInfo⟩

/-- A VCS-metadata directory entry. -/
def gitDirEntry : DirEntry := ⟨".git", .ok ⟨".git", 0, modeDir, ⟨0, 0⟩⟩⟩

/-- A filesystem whose directories list one plain file. -/
def fsOneEntry : GoFS where
  readDir := fun _ => .ok [plainEntry]
  openFile := fun _ => .error ()
  readlink := fun _ => .error ()

/-- A filesystem whose directories list a plain file, a socket and the
VCS metadata directory. -/
def fsSocketListing : GoFS where
  readDir := fun _ => .ok [plainEntry, socketEntry, gitDirEntry]
  openFile := fun _ => .error ()
  readlink := fun _ => .error ()

/-- A root directory node with no submodules and no index. -/
def emptyDirRoot : Node := NewRootNode []

/-- The state of `emptyDirRoot` after listing one plain entry. -/
def oneChildRoot : Node :=
  emptyDirRoot.withChildren [newChildNode emptyDirRoot plainInfo]

/-- A named-pipe node whose path is recorded in the submodule map: its
mode has no git equivalent, so mode translation fails. -/
def pipeSubmoduleNode : Node :=
  .mk [("sub", List.replicate 20 5)] none none "sub" none [] false
    modeNamedPipe 0 ⟨0, 0⟩

/-- A node for an on-disk directory whose path is recorded in the
submodule map (as `newChildNode` builds it: `isDir` forced to false, the
directory bit still in the mode). -/
def dirSubmoduleNode : Node :=
  .mk [("sub", List.replicate 20 5)] none none "sub" none [] false
    modeDir 0 ⟨0, 0⟩

/-- An index entry recording hash 3…3, size 10, time 100s, regular mode. -/
def cexEntry : IndexEntry :=
  ⟨"a.txt", List.replicate 20 3, 10, ⟨100, 0⟩, gitRegular⟩

/-- A regular-file node over `cexEntry` whose observed modification time
is the zero value (while the entry records 100s); size and mode match
the entry. -/
def cexNode : Node :=
  .mk [] (some [cexEntry]) none "a.txt" none [] false 0o644 10 ⟨0, 0⟩

/-- A regular-file node over `cexEntry` whose observed size, time and
mode all match the entry exactly. -/
def matchNode : Node :=
  .mk [] (some [cexEntry]) none "a.txt" none [] false 0o644 10 ⟨100, 0⟩

/-- A regular-file node over `cexEntry` whose observed size differs from
the recorded one, forcing the slow path. -/
def staleNode : Node :=
  .mk [] (some [cexEntry]) none "a.txt" none [] false 0o644 11 ⟨100, 0⟩

/-- A regular-file node with AutoCRLF enabled and no index. -/
def crlfNode : Node :=
  .mk [] none (some ⟨true⟩) "t.txt" none [] false 0o644 4 ⟨0, 0⟩

/-! Helper lemmas on the node accessors and updates. -/

theorem Node.hash_withHash (n : Node) (h : Option (List Nat)) :
    (n.withHash h).hash = h := by
  cases n; rfl

theorem Node.isDir_withChildren (n : Node) (cs : List Node) :
    (n.withChildren cs).isDir = n.isDir := by
  cases n; rfl

theorem Node.children_withChildren (n : Node) (cs : List Node) :
    (n.withChildren cs).children = cs := by
  cases n; rfl

/-- C4: the hash of a directory node is the fixed 24-byte zero sentinel,
for every filesystem, hashing environment, index, submodule map and
option set, and the filesystem is never touched. -/
theorem c4_directory_sentinel (fs : GoFS) (env : HashEnv) (n : Node)
    (hdir : n.isDir = true) (hfresh : n.hash = none) :
    nodeHash fs env n =
      (List.replicate 24 0, n.withHash (some (List.replicate 24 0)), false) := by
  cases n with
  | mk s i o p h c d m sz t =>
    simp only [Node.hash] at hfresh
    simp only [Node.isDir] at hdir
    subst hfresh hdir
    simp [nodeHash, calculateHash, Node.isDir, Node.hash, Node.withHash]

/-- C4 witness at a concrete root directory over a dead filesystem. -/
theorem c4_directory_sentinel_witness :
    nodeHash fsUnavailable envConst emptyDirRoot =
      (List.replicate 24 0,
        emptyDirRoot.withHash (some (List.replicate 24 0)), false) :=
  c4_directory_sentinel fsUnavailable envConst emptyDirRoot rfl rfl

/-- C5: `Hash()` is lazy and memoized — a second call on the node state
returned by a first call yields the same bytes and the same node, and
performs no filesystem read (the `Bool` component is `false`). -/
theorem c5_hash_memoized (fs : GoFS) (env : HashEnv) (n : Node) :
    nodeHash fs env (nodeHash fs env n).2.1 =
      ((nodeHash fs env n).1, (nodeHash fs env n).2.1, false) := by
  cases n with
  | mk s i o p h c d m sz t =>
    cases h with
    | some bytes => simp [nodeHash, Node.hash]
    | none => simp [nodeHash, Node.hash, Node.withHash]

/-- C2: when the observed modification time is the zero value, the
modification-time comparison never decides `metadataMatches`: the
outcome is exactly the size check conjoined with the translated-mode
check, and it is invariant under the entry's recorded time. -/
theorem c2_zero_modtime_skip (n : Node) (entry : IndexEntry)
    (hz : n.modTime.isZero = true) :
    (metadataMatches n entry =
      ((uint32cast n.size == entry.size) &&
        match newFromOSFileMode n.mode with
        | none => false
        | some mode => mode == entry.mode))
    ∧ ∀ t : GoTime,
        metadataMatches n { entry with modifiedAt := t } =
          metadataMatches n entry := by
  constructor
  · unfold metadataMatches
    rw [hz]
    by_cases hs : uint32cast n.size = entry.size
    · simp [hs]
    · simp [hs]
  · intro t
    unfold metadataMatches
    rw [hz]
    by_cases hs : uint32cast n.size = entry.size
    · simp [hs]
    · simp [hs]

/-- C2 witness: at `cexNode` (zero observed time) over `cexEntry`
(recorded time 100s), the match is decided by size and mode alone. -/
theorem c2_zero_modtime_skip_witness :
    metadataMatches cexNode cexEntry =
      ((uint32cast cexNode.size == cexEntry.size) &&
        match newFromOSFileMode cexNode.mode with
        | none => false
        | some mode => mode == cexEntry.mode) :=
  (c2_zero_modtime_skip cexNode cexEntry rfl).1

/-- C7: failure degradation of `Hash()`. When the mode translation
fails, the result is the bare 20-byte zero hash; when the mode
translates but the slow-path I/O fails (file open/read for regular
files, link-target read for symlinks), the result is the zero hash
followed by the translated mode marker. In both cases the content-hash
component is `plumbing.ZeroHash` and the call returns normally — the
embedding is a total function, so no error can surface. -/
theorem c7_failure_zero_hash (fs : GoFS) (env : HashEnv) (n : Node)
    (hdir : n.isDir = false) (hfresh : n.hash = none) :
    (newFromOSFileMode n.mode = none →
      nodeHash fs env n =
        (List.replicate 20 0, n.withHash (some (List.replicate 20 0)), false))
    ∧ (∀ m, newFromOSFileMode n.mode = some m →
        mapLookup n.submodules n.path = none →
        (∀ e, getIndexEntry n = some e → metadataMatches n e = false) →
        (n.mode &&& modeSymlink = 0 → fs.openFile n.path = .error ()) →
        (n.mode &&& modeSymlink ≠ 0 → fs.readlink n.path = .error ()) →
        nodeHash fs env n =
          (List.replicate 20 0 ++ modeBytes m,
            n.withHash (some (List.replicate 20 0 ++ modeBytes m)), true)) := by
  constructor
  · intro hm
    simp [nodeHash, hfresh, calculateHash, hdir, hm]
  · intro m hm hsub hidx hreg hsym
    have hch : calculateHash fs env n =
        (List.replicate 20 0 ++ modeBytes m, true) := by
      unfold calculateHash
      rw [hm, hsub]
      simp only [hdir, Bool.false_eq_true, if_false]
      by_cases hlink : n.mode &&& modeSymlink = 0
      · have hopen := hreg hlink
        cases hge : getIndexEntry n with
        | some e =>
          simp [hge, hidx e hge, hlink, doCalculateHashForRegular, hopen]
        | none =>
          simp [hge, hlink, doCalculateHashForRegular, hopen]
      · have htarget := hsym hlink
        cases hge : getIndexEntry n with
        | some e =>
          simp [hge, hidx e hge, hlink, doCalculateHashForSymlink, htarget]
        | none =>
          simp [hge, hlink, doCalculateHashForSymlink, htarget]
    simp [nodeHash, hfresh, hch]

/-- C7 witness: a named-pipe node (its mode has no git equivalent) over
a dead filesystem hashes to the bare zero hash without error. -/
theorem c7_failure_zero_hash_witness :
    nodeHash fsUnavailable envConst pipeSubmoduleNode =
      (List.replicate 20 0,
        pipeSubmoduleNode.withHash (some (List.replicate 20 0)), false) :=
  (c7_failure_zero_hash fsUnavailable envConst pipeSubmoduleNode rfl rfl).1
    (by decide)

/-- Every child produced by the `calculateChildren` loop body comes from
a listed entry that is not in the ignore set, whose `Info()` succeeded,
and whose mode has no socket bit. -/
theorem buildChildren_mem (n : Node) (files : List DirEntry)
    (cs : List Node) (h : buildChildren n files = .ok cs) :
    ∀ c ∈ cs, ∃ f ∈ files, ignoreNames.contains f.name = false ∧
      ∃ i, f.info = .ok i ∧ i.mode &&& modeSocket = 0 ∧
        c = newChildNode n i := by
  induction files generalizing cs with
  | nil =>
    simp [buildChildren] at h
    subst h
    simp
  | cons f rest ih =>
    unfold buildChildren at h
    by_cases hig : ignoreNames.contains f.name = true
    · rw [if_pos hig] at h
      intro c hc
      obtain ⟨g, hg, hrest⟩ := ih cs h c hc
      exact ⟨g, List.mem_cons_of_mem f hg, hrest⟩
    · rw [if_neg hig] at h
      cases hinfo : f.info with
      | error e =>
        simp only [hinfo] at h
        exact Except.noConfusion h
      | ok i =>
        simp only [hinfo] at h
        by_cases hsock : i.mode &&& modeSocket ≠ 0
        · rw [if_pos hsock] at h
          intro c hc
          obtain ⟨g, hg, hrest⟩ := ih cs h c hc
          exact ⟨g, List.mem_cons_of_mem f hg, hrest⟩
        · rw [if_neg hsock] at h
          cases hbc : buildChildren n rest with
          | error e =>
            simp only [hbc] at h
            exact Except.noConfusion h
          | ok cs2 =>
            simp only [hbc] at h
            injection h with h
            subst h
            intro c hc
            rcases List.mem_cons.mp hc with hceq | hcmem
            · exact ⟨f, List.mem_cons_self f rest, by simpa using hig, i,
                hinfo, not_not.mp hsock, hceq⟩
            · obtain ⟨g, hg, hrest⟩ := ih cs2 hbc c hcmem
              exact ⟨g, List.mem_cons_of_mem f hg, hrest⟩

/-- C6: `Children()` on a fresh directory node returns an empty list and
no error when the directory no longer exists, propagates any other
listing failure as an error, and every returned child comes from a
listed entry outside the fixed ignore set. -/
theorem c6_children_errors (fs : GoFS) (n : Node)
    (hdir : n.isDir = true) (hfresh : n.children = []) :
    (fs.readDir n.path = .error .notExist →
      nodeChildren fs n = .ok ([], n, true))
    ∧ (fs.readDir n.path = .error .other → nodeChildren fs n = .error ())
    ∧ (∀ files, fs.readDir n.path = .ok files →
        ∀ cs n2 b, nodeChildren fs n = .ok (cs, n2, b) →
          ∀ c ∈ cs, ∃ f ∈ files, ignoreNames.contains f.name = false ∧
            ∃ i, f.info = .ok i ∧ c = newChildNode n i) := by
  refine ⟨?_, ?_, ?_⟩
  · intro hrd
    simp [nodeChildren, calculateChildren, hdir, hfresh, hrd]
  · intro hrd
    simp [nodeChildren, calculateChildren, hdir, hfresh, hrd]
  · intro files hrd cs n2 b hok c hc
    have hcc : calculateChildren fs n =
        match buildChildren n files with
        | .error _ => .error ()
        | .ok cs2 => .ok (n.withChildren cs2, true) := by
      simp [calculateChildren, hdir, hfresh, hrd]
    cases hbc : buildChildren n files with
    | error e =>
      rw [hbc] at hcc
      simp [nodeChildren, hcc] at hok
    | ok cs2 =>
      rw [hbc] at hcc
      have : cs = cs2 := by
        simp [nodeChildren, hcc, Node.children_withChildren] at hok
        exact hok.1.symm
      subst this
      obtain ⟨g, hg, hgig, i, hinfo, _, hci⟩ :=
        buildChildren_mem n files cs hbc c hc
      exact ⟨g, hg, hgig, i, hinfo, hci⟩

/-- C6 witness: the root of a vanished directory yields an empty child
list and no error. -/
theorem c6_children_errors_witness :
    nodeChildren fsNotExist emptyDirRoot = .ok ([], emptyDirRoot, true) :=
  (c6_children_errors fsNotExist emptyDirRoot rfl rfl).1 rfl

/-- C3 counterexample: a named-pipe node whose path is recorded in the
submodule map. Mode translation runs before the submodule lookup and
fails for a pipe, so `Hash()` returns the bare zero hash instead of the
recorded submodule commit id with the gitlink marker — refuting the
claim for such a node. -/
theorem c3_claim_counterexample :
    mapLookup pipeSubmoduleNode.submodules pipeSubmoduleNode.path =
      some (List.replicate 20 5)
    ∧ (nodeHash fsUnavailable envConst pipeSubmoduleNode).1 =
      List.replicate 20 0
    ∧ (nodeHash fsUnavailable envConst pipeSubmoduleNode).1 ≠
      List.replicate 20 5 ++ modeBytes gitSubmodule := by
  refine ⟨by decide, by decide, by decide⟩

/-- C3 amended: for every node whose path is in the submodule map and
whose mode translates successfully, `Hash()` returns the recorded
submodule commit id concatenated with the gitlink mode marker, without
touching file content — for every filesystem, so in particular when a
real directory exists on disk at that path (whose directory mode does
translate). Moreover `newChildNode` forces such nodes to be
non-directories. -/
theorem c3_submodule_amended (fs : GoFS) (env : HashEnv) (n : Node)
    (hdir : n.isDir = false) (hfresh : n.hash = none)
    (sh : List Nat) (hsub : mapLookup n.submodules n.path = some sh)
    (m : Nat) (hm : newFromOSFileMode n.mode = some m) :
    nodeHash fs env n =
      (sh ++ modeBytes gitSubmodule,
        n.withHash (some (sh ++ modeBytes gitSubmodule)), false)
    ∧ ∀ (n0 : Node) (fi : DirEntryInfo),
        (mapLookup n0.submodules (pathJoin n0.path fi.name)).isSome = true →
        (newChildNode n0 fi).isDir = false := by
  constructor
  · simp [nodeHash, hfresh, calculateHash, hdir, hm, hsub]
  · intro n0 fi hs
    simp [newChildNode, Node.isDir, hs]

/-- C3 amended witness: an on-disk directory at a submodule path hashes
to the recorded commit id plus the gitlink marker, without any read. -/
theorem c3_submodule_amended_witness :
    nodeHash fsUnavailable envConst dirSubmoduleNode =
      (List.replicate 20 5 ++ modeBytes gitSubmodule,
        dirSubmoduleNode.withHash
          (some (List.replicate 20 5 ++ modeBytes gitSubmodule)), false) :=
  (c3_submodule_amended fsUnavailable envConst dirSubmoduleNode rfl rfl
    (List.replicate 20 5) (by decide) gitDirMode (by decide)).1

/-- C9 counterexample: a directory whose first (successful) listing is
empty. The cache check is on the length of the child list, so the empty
result is never cached: the second `Children()` call invokes the
directory listing again (the `Bool` component is `true` on both calls),
refuting the claim that the listing is read at most once. -/
theorem c9_claim_counterexample :
    nodeChildren fsEmptyListing emptyDirRoot = .ok ([], emptyDirRoot, true)
    ∧ (match nodeChildren fsEmptyListing emptyDirRoot with
       | .ok (_, n1, _) =>
         nodeChildren fsEmptyListing n1 = .ok ([], n1, true)
       | .error _ => False) := by
  exact ⟨rfl, rfl⟩

/-- C9 amended: a successful `Children()`/`NumChildren()` call whose
resulting child list is non-empty is cached — every later call on the
resulting node returns the same list without invoking the filesystem
listing again. (A call that produced an empty list is not cached, as the
counterexample shows.) -/
theorem c9_children_cache_amended (fs : GoFS) (n n2 : Node) (b : Bool)
    (hdir : n.isDir = true) (h1 : calculateChildren fs n = .ok (n2, b))
    (hne : n2.children ≠ []) :
    nodeChildren fs n2 = .ok (n2.children, n2, false)
    ∧ nodeNumChildren fs n2 = .ok (n2.children.length, n2, false) := by
  have hd2 : n2.isDir = true := by
    unfold calculateChildren at h1
    simp only [hdir, Bool.not_true, Bool.false_eq_true, if_false] at h1
    by_cases hlen : n.children.length ≠ 0
    · rw [if_pos hlen] at h1
      simp only [Except.ok.injEq, Prod.mk.injEq] at h1
      obtain ⟨rfl, rfl⟩ := h1
      exact hdir
    · rw [if_neg hlen] at h1
      cases hrd : fs.readDir n.path with
      | error e =>
        cases e with
        | notExist =>
          simp only [hrd, Except.ok.injEq, Prod.mk.injEq] at h1
          obtain ⟨rfl, rfl⟩ := h1
          exact hdir
        | other =>
          simp only [hrd] at h1
          exact Except.noConfusion h1
      | ok files =>
        simp only [hrd] at h1
        cases hbc : buildChildren n files with
        | error e =>
          simp only [hbc] at h1
          exact Except.noConfusion h1
        | ok cs =>
          simp only [hbc, Except.ok.injEq, Prod.mk.injEq] at h1
          obtain ⟨rfl, rfl⟩ := h1
          rw [Node.isDir_withChildren]
          exact hdir
  have hlen2 : n2.children.length ≠ 0 := by simpa using hne
  have hcc : calculateChildren fs n2 = .ok (n2, false) := by
    unfold calculateChildren
    simp only [hd2, Bool.not_true, Bool.false_eq_true, if_false]
    rw [if_pos hlen2]
  simp [nodeChildren, nodeNumChildren, hcc]

/-- C9 amended witness: after listing one plain entry, a second
`Children()` call returns the cached single-child list with no further
listing. -/
theorem c9_children_cache_amended_witness :
    nodeChildren fsOneEntry oneChildRoot =
      .ok (oneChildRoot.children, oneChildRoot, false)
    ∧ nodeNumChildren fsOneEntry oneChildRoot =
      .ok (oneChildRoot.children.length, oneChildRoot, false) :=
  c9_children_cache_amended fsOneEntry emptyDirRoot oneChildRoot true rfl rfl
    (by simp [oneChildRoot, Node.children_withChildren])

/-- When every `Info()` call in the listing succeeds, the
`calculateChildren` loop body produces exactly the per-entry filter
`childOfEntry` mapped over the listing. -/
theorem buildChildren_eq_filterMap (n : Node) (files : List DirEntry)
    (hinfo : ∀ f ∈ files, (f.info).isOk = true) :
    buildChildren n files = .ok (files.filterMap (childOfEntry n)) := by
  induction files with
  | nil => simp [buildChildren]
  | cons f rest ih =>
    have hf : (f.info).isOk = true := hinfo f (List.mem_cons_self f rest)
    have hrest : ∀ g ∈ rest, (g.info).isOk = true := fun g hg =>
      hinfo g (List.mem_cons_of_mem f hg)
    unfold buildChildren
    by_cases hig : ignoreNames.contains f.name = true
    · have hmem : f.name ∈ ignoreNames := by simpa using hig
      rw [if_pos hig, ih hrest]
      simp [List.filterMap_cons, childOfEntry, hmem]
    · have hmem : f.name ∉ ignoreNames := by simpa using hig
      rw [if_neg hig]
      cases hinf : f.info with
      | error e =>
        rw [hinf] at hf
        simp [Except.isOk, Except.toBool] at hf
      | ok i =>
        simp only [hinf]
        by_cases hsock : i.mode &&& modeSocket ≠ 0
        · rw [if_pos hsock, ih hrest]
          simp [List.filterMap_cons, childOfEntry, hmem, hinf, hsock]
        · rw [if_neg hsock, ih hrest]
          simp [List.filterMap_cons, childOfEntry, hmem, hinf, hsock]

/-- The mode recorded in a child node is the listed entry's mode. -/
theorem newChildNode_mode (n : Node) (fi : DirEntryInfo) :
    (newChildNode n fi).mode = fi.mode := by
  simp [newChildNode, Node.mode]

/-- C10: on a listing whose `Info()` calls all succeed, the child list
is exactly the listing filtered by `childOfEntry`; an entry whose mode
has the socket bit set is mapped to `none` by that filter (even when its
name is not in the ignore set), so it appears in neither the `Children`
list nor the `NumChildren` count, and indeed every returned child's mode
has no socket bit. -/
theorem c10_socket_skipped (fs : GoFS) (n : Node) (files : List DirEntry)
    (hdir : n.isDir = true) (hfresh : n.children = [])
    (hrd : fs.readDir n.path = .ok files)
    (hinfo : ∀ f ∈ files, (f.info).isOk = true) :
    nodeChildren fs n =
      .ok (files.filterMap (childOfEntry n),
        n.withChildren (files.filterMap (childOfEntry n)), true)
    ∧ nodeNumChildren fs n =
      .ok ((files.filterMap (childOfEntry n)).length,
        n.withChildren (files.filterMap (childOfEntry n)), true)
    ∧ (∀ f ∈ files, ∀ i, f.info = .ok i → i.mode &&& modeSocket ≠ 0 →
        childOfEntry n f = none)
    ∧ ∀ c ∈ files.filterMap (childOfEntry n), c.mode &&& modeSocket = 0 := by
  have hbc := buildChildren_eq_filterMap n files hinfo
  have hcc : calculateChildren fs n =
      .ok (n.withChildren (files.filterMap (childOfEntry n)), true) := by
    unfold calculateChildren
    simp [hdir, hfresh, hrd, hbc]
  refine ⟨?_, ?_, ?_, ?_⟩
  · simp [nodeChildren, hcc, Node.children_withChildren]
  · simp [nodeNumChildren, hcc, Node.children_withChildren]
  · intro f _ i hi hsock
    unfold childOfEntry
    by_cases hig : ignoreNames.contains f.name = true
    · rw [if_pos hig]
    · rw [if_neg hig]
      simp [hi, hsock]
  · intro c hc
    obtain ⟨f, _, hcf⟩ := List.mem_filterMap.mp hc
    unfold childOfEntry at hcf
    by_cases hig : ignoreNames.contains f.name = true
    · rw [if_pos hig] at hcf
      exact Option.noConfusion hcf
    · rw [if_neg hig] at hcf
      cases hinf : f.info with
      | error e =>
        rw [hinf] at hcf
        exact Option.noConfusion hcf
      | ok i =>
        simp only [hinf] at hcf
        by_cases hsock : i.mode &&& modeSocket ≠ 0
        · rw [if_pos hsock] at hcf
          exact Option.noConfusion hcf
        · rw [if_neg hsock] at hcf
          injection hcf with hcf
          rw [← hcf, newChildNode_mode]
          exact not_not.mp hsock

/-- C10 witness: a listing with a plain file, a socket and `.git` yields
exactly one child (the plain file). -/
theorem c10_socket_skipped_witness :
    nodeChildren fsSocketListing emptyDirRoot =
      .ok ([plainEntry, socketEntry, gitDirEntry].filterMap
          (childOfEntry emptyDirRoot),
        emptyDirRoot.withChildren
          ([plainEntry, socketEntry, gitDirEntry].filterMap
            (childOfEntry emptyDirRoot)), true) :=
  (c10_socket_skipped fsSocketListing emptyDirRoot
    [plainEntry, socketEntry, gitDirEntry] rfl rfl rfl (by decide)).1

/-- CRLF rewriting never lengthens the stream. -/
theorem lfConvert_length_le : ∀ l : List Nat, (lfConvert l).length ≤ l.length
  | [] => by simp [lfConvert]
  | [b] => by simp [lfConvert]
  | b :: c :: rest => by
    have h1 := lfConvert_length_le rest
    have h2 := lfConvert_length_le (c :: rest)
    unfold lfConvert
    by_cases hbc : (b = 13 && c = 10) = true
    · rw [if_pos hbc]
      simp only [List.length_cons] at h2 ⊢
      omega
    · rw [if_neg hbc]
      simp only [List.length_cons] at h2 ⊢
      omega

/-- C8: with AutoCRLF enabled and the file readable, binary content
skips the filter entirely — the hasher gets the raw bytes under the
original declared length `n.size` — while non-binary content goes
through the LF rewriting and the hasher's declared length is reset to
`n.size` minus the number of removed CRLF sequences; when the observed
size equals the actual content length, that declared length is exactly
the post-filter length. -/
theorem c8_crlf_declared_length (fs : GoFS) (env : HashEnv) (n : Node)
    (content : List Nat) (hopen : fs.openFile n.path = .ok content)
    (hopt : n.options = some ⟨true⟩) :
    (env.isBinary content = true →
      doCalculateHashForRegular fs env n = env.sha1Blob n.size content)
    ∧ (env.isBinary content = false →
      doCalculateHashForRegular fs env n =
        env.sha1Blob (n.size - (crlfCount content : Int)) (lfConvert content))
    ∧ (env.isBinary content = false → n.size = (content.length : Int) →
      doCalculateHashForRegular fs env n =
        env.sha1Blob ((lfConvert content).length : Int) (lfConvert content)) := by
  refine ⟨?_, ?_, ?_⟩
  · intro hb
    simp [doCalculateHashForRegular, hopen, hopt, hb]
  · intro hb
    simp [doCalculateHashForRegular, hopen, hopt, hb]
  · intro hb hsz
    have hle := lfConvert_length_le content
    have hlen : n.size - (crlfCount content : Int) =
        ((lfConvert content).length : Int) := by
      rw [hsz]
      unfold crlfCount
      omega
    simp [doCalculateHashForRegular, hopen, hopt, hb, hlen]

/-- C8 witness: the file `A\r\nB` (observed size 4) is non-binary, one
CRLF is removed, and the hasher is invoked with declared length 3 on the
converted bytes `A\nB`. -/
theorem c8_crlf_declared_length_witness :
    doCalculateHashForRegular fsCRLF envConst crlfNode =
      envConst.sha1Blob ((lfConvert [65, 13, 10, 66]).length : Int)
        (lfConvert [65, 13, 10, 66]) :=
  (c8_crlf_declared_length fsCRLF envConst crlfNode [65, 13, 10, 66]
    rfl rfl).2.2 rfl rfl

/-- C1 counterexample: `cexNode` has an index entry for its path and its
observed modification time (the zero value) differs from the entry's
recorded time, yet `Hash()` takes the fast path — it returns the entry's
recorded hash without reading the file, and the reused value does not
reflect the actual on-disk content. This refutes the claimed
"only if all three observed values equal the recorded ones". -/
theorem c1_claim_counterexample :
    getIndexEntry cexNode = some cexEntry
    ∧ GoTime.equal cexNode.modTime cexEntry.modifiedAt = false
    ∧ fsContent.openFile cexNode.path = .ok (List.replicate 10 65)
    ∧ (nodeHash fsContent envConst cexNode).1 =
      cexEntry.hash ++ modeBytes gitRegular
    ∧ (nodeHash fsContent envConst cexNode).2.2 = false
    ∧ envConst.sha1Blob cexNode.size (List.replicate 10 65) ++
        modeBytes gitRegular ≠ cexEntry.hash ++ modeBytes gitRegular := by
  refine ⟨by decide, by decide, rfl, by decide, by decide, by decide⟩

/-- C1 amended: for a fresh non-directory, non-submodule node whose mode
translates to `m`, the fast-path test compares the observed size
truncated to 32 bits with the recorded size, accepts the modification
time when the observed time is the zero value or equals the recorded
one, and compares the translated mode with the recorded mode. When an
entry exists and that test passes, `Hash()` reuses the recorded hash
with no content read; when no entry exists or the test fails, the slow
path reads the filesystem and (when the read succeeds, with CRLF
normalization off) the result is the blob hash of the actual on-disk
content — file bytes for regular files, the target for symlinks. -/
theorem c1_fast_path_amended (fs : GoFS) (env : HashEnv) (n : Node)
    (hdir : n.isDir = false) (hfresh : n.hash = none)
    (hsub : mapLookup n.submodules n.path = none)
    (m : Nat) (hm : newFromOSFileMode n.mode = some m) :
    (∀ e : IndexEntry,
      metadataMatches n e =
        ((uint32cast n.size == e.size) &&
          (n.modTime.isZero || n.modTime.equal e.modifiedAt) &&
          (m == e.mode)))
    ∧ (∀ e, getIndexEntry n = some e → metadataMatches n e = true →
        nodeHash fs env n =
          (e.hash ++ modeBytes m,
            n.withHash (some (e.hash ++ modeBytes m)), false))
    ∧ ((getIndexEntry n = none ∨
        ∀ e, getIndexEntry n = some e → metadataMatches n e = false) →
        (nodeHash fs env n).2.2 = true
        ∧ (n.mode &&& modeSymlink = 0 →
            (∀ o, n.options = some o → o.autoCRLF = false) →
            ∀ content, fs.openFile n.path = .ok content →
              (nodeHash fs env n).1 =
                env.sha1Blob n.size content ++ modeBytes m)
        ∧ (n.mode &&& modeSymlink ≠ 0 →
            ∀ target, fs.readlink n.path = .ok target →
              (nodeHash fs env n).1 =
                env.sha1Blob n.size target ++ modeBytes m)) := by
  refine ⟨?_, ?_, ?_⟩
  · intro e
    simp only [metadataMatches, hm]
    by_cases hs : uint32cast n.size = e.size
    · cases hz : n.modTime.isZero <;>
        cases he : n.modTime.equal e.modifiedAt <;> simp [hs, hz, he]
    · simp [hs]
  · intro e hge hmm
    simp [nodeHash, hfresh, calculateHash, hdir, hm, hsub, hge, hmm]
  · intro hslow
    have hfast : ∀ e, getIndexEntry n = some e →
        metadataMatches n e = false := by
      cases hslow with
      | inl hnone =>
        intro e hge
        rw [hnone] at hge
        exact Option.noConfusion hge
      | inr h => exact h
    refine ⟨?_, ?_, ?_⟩
    · have hch2 : (calculateHash fs env n).2 = true := by
        unfold calculateHash
        rw [hm, hsub]
        simp only [hdir, Bool.false_eq_true, if_false]
        cases hge : getIndexEntry n with
        | some e =>
          simp only [hge, hfast e hge, Bool.false_eq_true, if_false]
          by_cases hlink : n.mode &&& modeSymlink ≠ 0
          · rw [if_pos hlink]
          · rw [if_neg hlink]
        | none =>
          simp only
          by_cases hlink : n.mode &&& modeSymlink ≠ 0
          · rw [if_pos hlink]
          · rw [if_neg hlink]
      simp [nodeHash, hfresh, hch2]
    · intro hlink hopt content hopen
      have hreg : doCalculateHashForRegular fs env n =
          env.sha1Blob n.size content := by
        unfold doCalculateHashForRegular
        simp only [hopen]
        cases hoptv : n.options with
        | none => rfl
        | some o => simp [hopt o hoptv]
      have hch2 : calculateHash fs env n =
          (env.sha1Blob n.size content ++ modeBytes m, true) := by
        unfold calculateHash
        rw [hm, hsub]
        simp only [hdir, Bool.false_eq_true, if_false]
        cases hge : getIndexEntry n with
        | some e => simp [hge, hfast e hge, hlink, hreg]
        | none => simp [hlink, hreg]
      simp [nodeHash, hfresh, hch2]
    · intro hlink target htarget
      have hsym : doCalculateHashForSymlink fs env n =
          env.sha1Blob n.size target := by
        unfold doCalculateHashForSymlink
        simp only [htarget]
      have hch2 : calculateHash fs env n =
          (env.sha1Blob n.size target ++ modeBytes m, true) := by
        unfold calculateHash
        rw [hm, hsub]
        simp only [hdir, Bool.false_eq_true, if_false]
        cases hge : getIndexEntry n with
        | some e => simp [hge, hfast e hge, hlink, hsym]
        | none => simp [hlink, hsym]
      simp [nodeHash, hfresh, hch2]

/-- C1 amended witness: `matchNode` (size, time and mode all matching
the entry) takes the fast path and reuses the recorded hash without any
read; `staleNode` (size 11 against recorded 10) takes the slow path and
hashes the actual ten on-disk bytes. -/
theorem c1_fast_path_amended_witness :
    nodeHash fsContent envConst matchNode =
      (cexEntry.hash ++ modeBytes gitRegular,
        matchNode.withHash (some (cexEntry.hash ++ modeBytes gitRegular)),
        false)
    ∧ (nodeHash fsContent envConst staleNode).1 =
      envConst.sha1Blob staleNode.size (List.replicate 10 65) ++
        modeBytes gitRegular := by
  constructor
  · exact (c1_fast_path_amended fsContent envConst matchNode rfl rfl rfl
      gitRegular (by decide)).2.1 cexEntry rfl (by decide)
  · refine ((c1_fast_path_amended fsContent envConst staleNode rfl rfl rfl
      gitRegular (by decide)).2.2 (Or.inr ?_)).2.1 (by decide)
      (fun o h => Option.noConfusion h) (List.replicate 10 65) rfl
    intro e hge
    have h2 : some cexEntry = some e := hge
    injection h2 with h2
    subst h2
    decide
